import Mathlib

/-!
Shallow embedding of `dnsperf.py`, a sequential DNS latency benchmark.

Latencies are modelled as exact rationals.  The Python floats that the
program stores in its statistics dictionaries are modelled by `Flt`,
which distinguishes a finite value from the two non-finite floats the
program manufactures explicitly: `float(nan)` (undefined statistics)
and `float(inf)` (the ranking key of a resolver with no data).
IEEE equality (`==` on floats, false on NaN even against itself) is
modelled by `Flt.beq`.
-/

namespace DnsPerf

/-- A Python float as used by the program: a finite value, NaN, or +inf. -/
inductive Flt where
  | val (q : ℚ)
  | nan
  | inf
deriving DecidableEq

/-- IEEE `==` on the floats the program handles: NaN compares unequal to
everything (itself included); `inf == inf` is true. -/
def Flt.beq : Flt → Flt → Bool
  | .val a, .val b => a == b
  | .inf, .inf => true
  | _, _ => false

/-- The `<`/`<=`-ordering used when Python sorts the ranking keys.
Ranking keys are only ever finite values or `inf` (never NaN); the
position given to `nan` here is arbitrary and never exercised. -/
def Flt.le : Flt → Flt → Bool
  | .nan, _ => true
  | .val _, .nan => false
  | .val a, .val b => decide (a ≤ b)
  | .val _, .inf => true
  | .inf, .nan => false
  | .inf, .val _ => false
  | .inf, .inf => true

/-- One (resolver, domain, trial) outcome: a latency in ms, or `none`
for a failed query (Python `None`), as appended by the trial loop. -/
abbrev Sample := Option ℚ

/-- The filter applied before any statistic, from
`if t is not None and t > 0: all_times.append(t)` (and the identical
per-domain comprehension): keep samples that are present and > 0 ms. -/
def filterValid (l : List Sample) : List ℚ :=
  l.filterMap fun t =>
    match t with
    | none => none
    | some x => if 0 < x then some x else none

/-- The per-resolver statistics record stored in `overall_stats`.
The source stores `std_dev = statistics.stdev(all_times) if len > 1
else 0.0`; `statistics.stdev` is the square root of the
Bessel-corrected sample variance.  We store the radicand in `var`
(with the same guards: NaN when no data, `0` for a single sample) and
expose the standard deviation itself as `Stats.std` below. -/
structure Stats where
  avg : Flt
  min : Flt
  max : Flt
  var : Flt
  count : ℕ
deriving DecidableEq

/-- Bessel-corrected sample variance, the radicand of
`statistics.stdev`: `sum ((x - mean)^2) / (n - 1)`. -/
def sampleVar (l : List ℚ) (mean : ℚ) : ℚ :=
  (l.map fun x => (x - mean) ^ 2).sum / ((l.length : ℚ) - 1)

/-- Lines 80..98 of the source, for one resolver: filter the samples,
then either compute mean / min / max / (guarded) stdev, or set every
statistic to `float(nan)` when no valid sample remains. -/
def computeStats (samples : List Sample) : Stats :=
  match filterValid samples with
  | [] => ⟨.nan, .nan, .nan, .nan, 0⟩
  | x :: xs =>
    { avg := .val ((x :: xs).sum / ((x :: xs).length : ℚ))
      min := .val (xs.foldl Min.min x)
      max := .val (xs.foldl Max.max x)
      var := .val (if 1 < (x :: xs).length then
          sampleVar (x :: xs) ((x :: xs).sum / ((x :: xs).length : ℚ)) else 0)
      count := (x :: xs).length }

/-- The standard deviation the source stores: the square root of the
stored radicand, undefined (`none`, modelling NaN) when there is no
data. -/
noncomputable def Stats.std (s : Stats) : Option ℝ :=
  match s.var with
  | .val q => some (Real.sqrt (q : ℝ))
  | _ => none

/-- Lines 121..126: the ranking key of one resolver, `float(inf)` when
`stats[count] == 0 or stats[avg] != stats[avg]` (the NaN check), else
the overall average. -/
def rankingKey (s : Stats) : Flt :=
  if s.count == 0 || !(Flt.beq s.avg s.avg) then .inf else s.avg

/-- The nested results dictionary
`{ resolver_name: { domain: [samples] } }`, as ordered association
lists (Python dictionaries preserve insertion order). -/
abbrev ResultsTable := List (String × List (String × List Sample))

/-- Lines 79..98: `overall_stats`, one `Stats` per resolver, computed
over the concatenation of that resolver domain sample lists in
declaration order (the `all_times` accumulation). -/
def overallStats (table : ResultsTable) : List (String × Stats) :=
  table.map fun row => (row.1, computeStats (row.2.map Prod.snd).flatten)

/-- Line 121..126: `ranking_stats`, each resolver paired with its key. -/
def rankingStats (overall : List (String × Stats)) : List (String × Flt) :=
  overall.map fun p => (p.1, rankingKey p.2)

/-- The comparison used by `sorted(ranking_stats.items(), key=lambda
item: item[1])`: compare the keys. -/
def keyLe (a b : String × Flt) : Bool := Flt.le a.2 b.2

/-- `keyLe` as a relation, for the sort lemmas. -/
def keyRel (a b : String × Flt) : Prop := keyLe a b = true

instance : DecidableRel keyRel :=
  fun a b => inferInstanceAs (Decidable (keyLe a b = true))

instance : IsTrans (String × Flt) keyRel where
  trans := by
    intro a b c hab hbc
    obtain ⟨_, fa⟩ := a
    obtain ⟨_, fb⟩ := b
    obtain ⟨_, fc⟩ := c
    unfold keyRel keyLe at *
    cases fa <;> cases fb <;> cases fc <;> simp_all [Flt.le]
    exact le_trans hab hbc

instance : IsTotal (String × Flt) keyRel where
  total := by
    intro a b
    obtain ⟨_, fa⟩ := a
    obtain ⟨_, fb⟩ := b
    unfold keyRel keyLe
    cases fa <;> cases fb <;> simp [Flt.le]
    exact le_total _ _

/-- Line 128: Python `sorted` is a stable ascending sort.  A stable
ascending sort of a list is extensionally unique, so it is modelled by
the stable structural `List.insertionSort` over the key comparison. -/
def sortedResolvers (ranking : List (String × Flt)) : List (String × Flt) :=
  ranking.insertionSort keyRel

/-- The observable outcome of lines 146..152: either the verdict line
with the best resolver and its average, or the no-data message. -/
inductive Verdict where
  | fastest (name : String) (avg : Flt)
  | noData
deriving DecidableEq

/-- Lines 146..152: if `sorted_resolvers` is nonempty and the head key
is not `inf`, name the head resolver and report
`overall_stats[best_resolver][avg]` (a dictionary access that cannot
fail in the source, since the name comes from `overall_stats` itself;
the `getD .nan` default is unreachable there). -/
def finalVerdict (overall : List (String × Stats)) : Verdict :=
  match sortedResolvers (rankingStats overall) with
  | [] => .noData
  | (name, key) :: _ =>
    if Flt.beq key .inf then .noData
    else .fastest name (((overall.lookup name).map Stats.avg).getD .nan)

/-- Two-digit zero padding for the fractional part of `%.2f`. -/
def pad2 (k : ℕ) : String := if k < 10 then "0" ++ toString k else toString k

/-- Model of Python `%.2f` on a finite value: round to two decimals and
print.  (No claim depends on the digits produced for finite values,
only on the strings produced for the non-finite floats.) -/
def ratFixed2 (q : ℚ) : String :=
  let n : ℤ := round (q * 100)
  (if n < 0 then "-" else "") ++ toString (n.natAbs / 100) ++ "." ++ pad2 (n.natAbs % 100)

/-- Model of Python `%.2f` on a float: Python renders NaN as `nan` and
infinity as `inf` under numeric formatting. -/
def fmt2 : Flt → String
  | .val q => ratFixed2 q
  | .nan => "nan"
  | .inf => "inf"

/-- Two-decimal rendering of the square root of the stored radicand,
approximating `%.2f` applied to the stored float `std_dev`.  (No claim
depends on the digits; only the NaN case matters.) -/
def sqrtFixed2 (q : ℚ) : String :=
  let m := Nat.sqrt (Int.toNat ⌊q * 10000⌋)
  toString (m / 100) ++ "." ++ pad2 (m % 100)

/-- `%.2f` of the stored standard deviation, going through the stored
radicand (see `Stats`): NaN renders as `nan`. -/
def fmtStd (s : Stats) : String :=
  match s.var with
  | .val q => sqrtFixed2 q
  | .nan => "nan"
  | .inf => "inf"

/-- Lines 132..144, one row of the final ranking table: the source
compares `stats[avg] == float(inf)` (IEEE equality) and renders the
four columns as `N/A` in the then-branch, else formats the four stored
floats with `%.2f`. -/
def renderRankCols (s : Stats) : String × String × String × String :=
  if Flt.beq s.avg .inf then ("N/A", "N/A", "N/A", "N/A")
  else (fmt2 s.avg, fmt2 s.min, fmt2 s.max, fmtStd s)

/-- Lines 52..73, the measurement loop.  The timed network query is the
only effect; it is modelled as an oracle `query ip domain trial`
returning either the elapsed milliseconds or an exception, and the
`try`/`except` records the elapsed time on success and `None` on any
error, then continues.  Trials are numbered `1..numTrials` as in
`range(1, num_trials + 1)`. -/
def runBenchmark (resolvers : List (String × String)) (domains : List String)
    (numTrials : ℕ) (query : String → String → ℕ → Except String ℚ) :
    ResultsTable :=
  resolvers.map fun r =>
    (r.1, domains.map fun d =>
      (d, (List.range numTrials).map fun k =>
        match query r.2 d (k + 1) with
        | .ok elapsed => some elapsed
        | .error _ => none))

/-- Observation helper: the sample of resolver `i`, domain `j`,
trial index `t` (0-based) in a results table, when all three exist. -/
def getCell (table : ResultsTable) (i j t : ℕ) : Option Sample :=
  table[i]?.bind fun row => row.2[j]?.bind fun cell => cell.2[t]?

/-- Fixture: the overall stats of a resolver with no valid data, as
`computeStats` produces them. -/
def statsNoData : Stats := ⟨.nan, .nan, .nan, .nan, 0⟩

/-- Fixture: overall stats of a resolver with three valid samples of
5 ms each. -/
def statsFive : Stats := ⟨.val 5, .val 5, .val 5, .val 0, 3⟩

/-- Fixture: an `overall_stats` table with a data-free resolver on
either side of one resolver with data, to exercise ranking order and
stability. -/
def ovFix : List (String × Stats) :=
  [("NoDataA", statsNoData), ("Cloudflare 1.1.1.1", statsFive),
   ("NoDataC", statsNoData)]

/-- Fixture oracle that always succeeds, returning the trial number as
the latency. -/
def qOkFix : String → String → ℕ → Except String ℚ :=
  fun _ _ tr => .ok (tr : ℚ)

/-- Fixture oracle that always raises. -/
def qErrFix : String → String → ℕ → Except String ℚ :=
  fun _ _ _ => .error "The DNS operation timed out"

end DnsPerf

namespace DnsPerf

theorem filterValid_append (a b : List Sample) :
    filterValid (a ++ b) = filterValid a ++ filterValid b :=
  List.filterMap_append a b _

/-- C3: on an input whose filtered subsequence is empty, `compute_stats`
returns the NaN / no-data value for all four statistics (never 0, and,
being a total Lean function, never an exception). -/
theorem computeStats_empty (samples : List Sample)
    (h : filterValid samples = []) :
    computeStats samples = ⟨.nan, .nan, .nan, .nan, 0⟩ ∧
      (computeStats samples).std = none := by
  have hs : computeStats samples = ⟨.nan, .nan, .nan, .nan, 0⟩ := by
    unfold computeStats
    rw [h]
  exact ⟨hs, by rw [hs]; rfl⟩

/-- Witness for `computeStats_empty` at the concrete input
`[some 0, none]` (one cached 0 ms sample and one failure). -/
theorem computeStats_empty_witness :
    filterValid [some 0, none] = [] ∧
      (computeStats [some 0, none] = ⟨.nan, .nan, .nan, .nan, 0⟩ ∧
        (computeStats [some 0, none]).std = none) :=
  ⟨by decide, computeStats_empty [some 0, none] (by decide)⟩

/-- C4: a sample of exactly 0 ms is filtered out exactly like a failure
marker, so the statistics over a sequence holding a 0 sample agree with
those over the same sequence with that sample replaced by a failure. -/
theorem computeStats_zero_eq_failure (pre post : List Sample) :
    computeStats (pre ++ some 0 :: post) =
      computeStats (pre ++ none :: post) := by
  have hf : filterValid (pre ++ some 0 :: post) =
      filterValid (pre ++ none :: post) := by
    rw [filterValid_append, filterValid_append]
    simp [filterValid]
  unfold computeStats
  rw [hf]

theorem foldl_min_mem (xs : List ℚ) (x : ℚ) :
    xs.foldl Min.min x ∈ x :: xs := by
  induction xs generalizing x with
  | nil => simp
  | cons y ys ih =>
    simp only [List.foldl_cons]
    rcases List.mem_cons.mp (ih (Min.min x y)) with h1 | h1
    · rcases min_choice x y with hc | hc
      · rw [h1, hc]; exact List.mem_cons_self _ _
      · rw [h1, hc]; exact List.mem_cons_of_mem _ (List.mem_cons_self _ _)
    · exact List.mem_cons_of_mem _ (List.mem_cons_of_mem _ h1)

theorem foldl_min_le (xs : List ℚ) (x : ℚ) :
    ∀ y ∈ x :: xs, xs.foldl Min.min x ≤ y := by
  induction xs generalizing x with
  | nil =>
    intro y hy
    rcases List.mem_cons.mp hy with h | h
    · simp [h]
    · simp at h
  | cons z zs ih =>
    intro y hy
    simp only [List.foldl_cons]
    rcases List.mem_cons.mp hy with h1 | h1
    · rw [h1]
      exact le_trans (ih (Min.min x z) _ (List.mem_cons_self _ _)) (min_le_left x z)
    · rcases List.mem_cons.mp h1 with h2 | h2
      · rw [h2]
        exact le_trans (ih (Min.min x z) _ (List.mem_cons_self _ _)) (min_le_right x z)
      · exact ih (Min.min x z) y (List.mem_cons_of_mem _ h2)

theorem foldl_max_mem (xs : List ℚ) (x : ℚ) :
    xs.foldl Max.max x ∈ x :: xs := by
  induction xs generalizing x with
  | nil => simp
  | cons y ys ih =>
    simp only [List.foldl_cons]
    rcases List.mem_cons.mp (ih (Max.max x y)) with h1 | h1
    · rcases max_choice x y with hc | hc
      · rw [h1, hc]; exact List.mem_cons_self _ _
      · rw [h1, hc]; exact List.mem_cons_of_mem _ (List.mem_cons_self _ _)
    · exact List.mem_cons_of_mem _ (List.mem_cons_of_mem _ h1)

theorem foldl_max_ge (xs : List ℚ) (x : ℚ) :
    ∀ y ∈ x :: xs, y ≤ xs.foldl Max.max x := by
  induction xs generalizing x with
  | nil =>
    intro y hy
    rcases List.mem_cons.mp hy with h | h
    · simp [h]
    · simp at h
  | cons z zs ih =>
    intro y hy
    simp only [List.foldl_cons]
    rcases List.mem_cons.mp hy with h1 | h1
    · rw [h1]
      exact le_trans (le_max_left x z) (ih (Max.max x z) _ (List.mem_cons_self _ _))
    · rcases List.mem_cons.mp h1 with h2 | h2
      · rw [h2]
        exact le_trans (le_max_right x z) (ih (Max.max x z) _ (List.mem_cons_self _ _))
      · exact ih (Max.max x z) y (List.mem_cons_of_mem _ h2)

/-- C6: when exactly one valid sample `v` survives the filter,
`compute_stats` returns average = minimum = maximum = `v` and standard
deviation 0 (by the single-sample guard, not by formula). -/
theorem computeStats_single (samples : List Sample) (v : ℚ)
    (h : filterValid samples = [v]) :
    computeStats samples = ⟨.val v, .val v, .val v, .val 0, 1⟩ ∧
      (computeStats samples).std = some 0 := by
  have hs : computeStats samples = ⟨.val v, .val v, .val v, .val 0, 1⟩ := by
    unfold computeStats
    rw [h]
    norm_num
  refine ⟨hs, ?_⟩
  rw [hs]
  simp [Stats.std]

/-- Witness for `computeStats_single` at the single sample 12.5 ms. -/
theorem computeStats_single_witness :
    filterValid [some (25 / 2 : ℚ)] = [25 / 2] ∧
      (computeStats [some (25 / 2 : ℚ)] =
          ⟨.val (25 / 2), .val (25 / 2), .val (25 / 2), .val 0, 1⟩ ∧
        (computeStats [some (25 / 2 : ℚ)]).std = some 0) :=
  ⟨by norm_num [filterValid, List.filterMap_cons, List.filterMap_nil],
    computeStats_single [some (25 / 2 : ℚ)] (25 / 2) (by norm_num [filterValid, List.filterMap_cons, List.filterMap_nil])⟩

/-- C5: with at least two valid samples, `compute_stats` returns the
arithmetic mean, a genuine minimum and maximum of the filtered
samples, and the square root of the Bessel-corrected sample variance
(divisor n - 1). -/
theorem computeStats_bessel (samples : List Sample)
    (h : 2 ≤ (filterValid samples).length) :
    (computeStats samples).avg =
        .val ((filterValid samples).sum / ((filterValid samples).length : ℚ)) ∧
    (∃ m, (computeStats samples).min = .val m ∧ m ∈ filterValid samples ∧
        ∀ y ∈ filterValid samples, m ≤ y) ∧
    (∃ M, (computeStats samples).max = .val M ∧ M ∈ filterValid samples ∧
        ∀ y ∈ filterValid samples, y ≤ M) ∧
    (computeStats samples).std = some (Real.sqrt
        (((((filterValid samples).map fun x =>
              (x - (filterValid samples).sum /
                ((filterValid samples).length : ℚ)) ^ 2).sum /
            (((filterValid samples).length : ℚ) - 1) : ℚ) : ℝ))) := by
  rcases hf : filterValid samples with _ | ⟨x, xs⟩
  · rw [hf] at h
    simp at h
  · have h1 : 1 < (x :: xs).length := by
      rw [hf] at h
      exact h
    have hcs : computeStats samples =
        { avg := .val ((x :: xs).sum / ((x :: xs).length : ℚ))
          min := .val (xs.foldl Min.min x)
          max := .val (xs.foldl Max.max x)
          var := .val (sampleVar (x :: xs) ((x :: xs).sum / ((x :: xs).length : ℚ)))
          count := (x :: xs).length } := by
      simp only [computeStats, hf]
      rw [if_pos h1]
    rw [hcs]
    refine ⟨rfl, ⟨_, rfl, ?_, ?_⟩, ⟨_, rfl, ?_, ?_⟩, ?_⟩
    · exact foldl_min_mem xs x
    · exact foldl_min_le xs x
    · exact foldl_max_mem xs x
    · exact foldl_max_ge xs x
    · simp [Stats.std, sampleVar]

/-- Witness for `computeStats_bessel` on [10.0, 20.0, 30.0]:
avg = 20, min = 10, max = 30, std = 10. -/
theorem computeStats_bessel_witness :
    2 ≤ (filterValid [some 10, some 20, some 30]).length ∧
      ((computeStats [some 10, some 20, some 30]).avg = .val 20 ∧
        (computeStats [some 10, some 20, some 30]).min = .val 10 ∧
        (computeStats [some 10, some 20, some 30]).max = .val 30 ∧
        (computeStats [some 10, some 20, some 30]).std = some 10) := by
  have hfv : filterValid [some 10, some 20, some 30] = [10, 20, 30] := by
    norm_num [filterValid, List.filterMap_cons, List.filterMap_nil]
  have h2 : 2 ≤ (filterValid [some 10, some 20, some 30]).length := by
    rw [hfv]
    norm_num
  obtain ⟨ha, -, -, hstd⟩ := computeStats_bessel [some 10, some 20, some 30] h2
  rw [hfv] at ha hstd
  refine ⟨h2, ?_, ?_, ?_, ?_⟩
  · rw [ha]
    norm_num
  · have : computeStats [some 10, some 20, some 30] =
        ⟨.val 20, .val 10, .val 30, .val 100, 3⟩ := by
      unfold computeStats
      rw [hfv]
      norm_num [sampleVar]
    rw [this]
  · have : computeStats [some 10, some 20, some 30] =
        ⟨.val 20, .val 10, .val 30, .val 100, 3⟩ := by
      unfold computeStats
      rw [hfv]
      norm_num [sampleVar]
    rw [this]
  · rw [hstd]
    have hq : ((([10, 20, 30] : List ℚ).map fun x =>
        (x - ([10, 20, 30] : List ℚ).sum /
          ((([10, 20, 30] : List ℚ).length : ℚ))) ^ 2).sum /
        ((([10, 20, 30] : List ℚ).length : ℚ) - 1)) = 100 := by
      norm_num
    rw [hq]
    have h100 : ((100 : ℚ) : ℝ) = 10 ^ 2 := by norm_num
    rw [h100, Real.sqrt_sq (by norm_num : (0 : ℝ) ≤ 10)]

/-- C10: the overall average is NaN exactly when the valid-sample count
is 0, the two disjuncts of the ranking condition are equivalent, and
either one holds exactly when the ranking key is `inf`. -/
theorem avg_nan_iff_count_zero (samples : List Sample) :
    ((computeStats samples).avg = .nan ↔ (computeStats samples).count = 0) ∧
    (Flt.beq (computeStats samples).avg (computeStats samples).avg = false ↔
      (computeStats samples).count = 0) ∧
    (((computeStats samples).count = 0 ∨
        Flt.beq (computeStats samples).avg (computeStats samples).avg = false) ↔
      (computeStats samples).count = 0) ∧
    (rankingKey (computeStats samples) = .inf ↔
      (computeStats samples).count = 0) := by
  unfold computeStats
  rcases filterValid samples with _ | ⟨x, xs⟩
  · refine ⟨by simp, by simp [Flt.beq], by simp [Flt.beq], ?_⟩
    simp [rankingKey, Flt.beq]
  · refine ⟨by simp, ?_, ?_, ?_⟩
    · simp [Flt.beq]
    · simp [Flt.beq]
    · simp [rankingKey, Flt.beq]

theorem fltLe_inf_left {k : Flt} (h : Flt.le .inf k = true) : k = .inf := by
  cases k <;> simp_all [Flt.le]

theorem fltBeq_inf_iff {k : Flt} : Flt.beq k .inf = true ↔ k = .inf := by
  cases k <;> simp [Flt.beq]

theorem lookup_isSome_of_mem (l : List (String × Stats)) (name : String)
    (h : ∃ q ∈ l, q.1 = name) : ∃ s, l.lookup name = some s := by
  induction l with
  | nil =>
    rcases h with ⟨q, hq, _⟩
    simp at hq
  | cons x xs ih =>
    by_cases hx : name == x.1
    · exact ⟨x.2, by simp [List.lookup, hx]⟩
    · rcases h with ⟨q, hq, hqn⟩
      rcases List.mem_cons.mp hq with rfl | hq2
      · rw [hqn] at hx
        simp at hx
      · rcases ih ⟨q, hq2, hqn⟩ with ⟨s, hs⟩
        exact ⟨s, by simp [List.lookup, hx, hs]⟩

/-- C1 (source line 134 bug): in the final ranking table the source
renders the columns of a no-data resolver as the numeric string `nan`
(the `%.2f` image of NaN), not as `N/A`: the guard compares the NaN
average against `float(inf)` with IEEE `==`, which is false, so the
`N/A` branch is dead. -/
theorem ranking_table_renders_nan :
    (overallStats [("Quad9 9.9.9.9", [("google.com", [none, none, none])])]).map
        (fun p => renderRankCols p.2) = [("nan", "nan", "nan", "nan")] ∧
      ("nan" : String) ≠ "N/A" := by
  exact ⟨rfl, by decide⟩

/-- C2: the ranking sort is an ascending stable sort on the keys: the
output is a permutation of `ranking_stats`, sorted under the key
comparison; a resolver with zero valid samples or a NaN average gets
key `inf`; every `inf`-keyed entry sits strictly after every
finite-keyed entry; and the `inf`-keyed entries keep their original
relative order (stability). -/
theorem rank_resolvers_spec (overall : List (String × Stats)) :
    List.Perm (sortedResolvers (rankingStats overall)) (rankingStats overall) ∧
    List.Pairwise keyRel (sortedResolvers (rankingStats overall)) ∧
    (∀ s : Stats, s.count = 0 ∨ Flt.beq s.avg s.avg = false →
      rankingKey s = .inf) ∧
    (∀ i j (hi : i < (sortedResolvers (rankingStats overall)).length)
        (hj : j < (sortedResolvers (rankingStats overall)).length),
        ((sortedResolvers (rankingStats overall)).get ⟨i, hi⟩).2 = .inf →
        ((sortedResolvers (rankingStats overall)).get ⟨j, hj⟩).2 ≠ .inf →
        j < i) ∧
    (sortedResolvers (rankingStats overall)).filter (fun p => Flt.beq p.2 .inf)
      = (rankingStats overall).filter (fun p => Flt.beq p.2 .inf) := by
  refine ⟨List.perm_insertionSort keyRel _,
    List.sorted_insertionSort keyRel _, ?_, ?_, ?_⟩
  · intro s h
    rcases h with h | h <;> simp [rankingKey, h]
  · intro i j hi hj hinf hnin
    have hs : List.Sorted keyRel (sortedResolvers (rankingStats overall)) :=
      List.sorted_insertionSort keyRel (rankingStats overall)
    rcases lt_trichotomy i j with hlt | heq | hgt
    · exfalso
      have hrel := hs.rel_get_of_lt
        (show (⟨i, hi⟩ : Fin _) < ⟨j, hj⟩ from hlt)
      have hrel2 : Flt.le
          ((sortedResolvers (rankingStats overall)).get ⟨i, hi⟩).2
          ((sortedResolvers (rankingStats overall)).get ⟨j, hj⟩).2 = true := hrel
      rw [hinf] at hrel2
      exact hnin (fltLe_inf_left hrel2)
    · exfalso
      subst heq
      exact hnin hinf
    · exact hgt
  · have hsub0 : List.Sublist
        ((rankingStats overall).filter (fun p => Flt.beq p.2 .inf))
        (rankingStats overall) := List.filter_sublist _
    have hpw : ((rankingStats overall).filter
        (fun p => Flt.beq p.2 .inf)).Pairwise keyRel := by
      apply List.pairwise_of_forall_mem_list
      intro a ha b hb
      have ha2 := fltBeq_inf_iff.mp (List.mem_filter.mp ha).2
      have hb2 := fltBeq_inf_iff.mp (List.mem_filter.mp hb).2
      unfold keyRel keyLe
      rw [ha2, hb2]
      rfl
    have hsub := List.sublist_insertionSort hpw hsub0
    have hidem : ((rankingStats overall).filter
          (fun p => Flt.beq p.2 .inf)).filter (fun p => Flt.beq p.2 .inf) =
        (rankingStats overall).filter (fun p => Flt.beq p.2 .inf) :=
      List.filter_eq_self.mpr fun a ha => (List.mem_filter.mp ha).2
    have hsub2 := hsub.filter (fun p => Flt.beq p.2 .inf)
    rw [hidem] at hsub2
    have hlen := ((List.perm_insertionSort keyRel
        (rankingStats overall)).filter (fun p => Flt.beq p.2 .inf)).length_eq
    exact (hsub2.eq_of_length hlen.symm).symm

/-- Witness for `rank_resolvers_spec`: with one resolver with data
between two without, the sort puts the data resolver first and keeps
the two no-data resolvers in declaration order; a no-data stats record
gets key `inf`. -/
theorem rank_resolvers_spec_witness :
    sortedResolvers (rankingStats ovFix) =
        [("Cloudflare 1.1.1.1", Flt.val 5), ("NoDataA", Flt.inf),
          ("NoDataC", Flt.inf)] ∧
      rankingKey statsNoData = Flt.inf := by
  refine ⟨by decide, ?_⟩
  exact (rank_resolvers_spec ovFix).2.2.1 statsNoData (Or.inl rfl)

/-- C8: the final verdict is the no-data message exactly when every
ranking key is `inf`; as soon as one resolver has a finite key the
verdict names a resolver; and when the sorted ranking starts with a
finite-keyed resolver, the verdict names exactly that top resolver
together with its overall average from `overall_stats`. -/
theorem final_verdict_spec (overall : List (String × Stats)) :
    (finalVerdict overall = .noData ↔
      ∀ p ∈ rankingStats overall, p.2 = Flt.inf) ∧
    ((∃ p ∈ rankingStats overall, p.2 ≠ Flt.inf) →
      ∃ name avg, finalVerdict overall = .fastest name avg) ∧
    (∀ name key rest,
      sortedResolvers (rankingStats overall) = (name, key) :: rest →
      Flt.beq key .inf = false →
      ∃ s, overall.lookup name = some s ∧
        finalVerdict overall = .fastest name s.avg) := by
  have hperm : (sortedResolvers (rankingStats overall)).Perm
      (rankingStats overall) := List.perm_insertionSort keyRel _
  have hsorted : List.Sorted keyRel (sortedResolvers (rankingStats overall)) :=
    List.sorted_insertionSort keyRel _
  have part1 : finalVerdict overall = .noData ↔
      ∀ p ∈ rankingStats overall, p.2 = Flt.inf := by
    rcases hS : sortedResolvers (rankingStats overall) with _ | ⟨⟨name, key⟩, rest⟩
    · have hnil : rankingStats overall = [] := by
        have hp2 : ([] : List (String × Flt)).Perm (rankingStats overall) :=
          hS ▸ hperm
        exact hp2.symm.eq_nil
      constructor
      · intro _ p hp
        rw [hnil] at hp
        simp at hp
      · intro _
        unfold finalVerdict
        rw [hS]
    · rw [hS] at hperm hsorted
      by_cases hb : Flt.beq key .inf = true
      · have hkey : key = .inf := fltBeq_inf_iff.mp hb
        have hvd : finalVerdict overall = .noData := by
          unfold finalVerdict
          rw [hS]
          simp [hb]
        constructor
        · intro _ p hp
          have hpS : p ∈ (name, key) :: rest := hperm.symm.subset hp
          rcases List.mem_cons.mp hpS with rfl | hp2
          · exact hkey
          · have hrel := List.rel_of_sorted_cons hsorted p hp2
            unfold keyRel keyLe at hrel
            rw [hkey] at hrel
            exact fltLe_inf_left hrel
        · intro _
          exact hvd
      · have hb' : Flt.beq key .inf = false := by
          simpa using hb
        have hvd : finalVerdict overall =
            .fastest name (((overall.lookup name).map Stats.avg).getD .nan) := by
          unfold finalVerdict
          rw [hS]
          simp [hb']
        constructor
        · intro hno
          rw [hvd] at hno
          exact absurd hno (by simp)
        · intro hall
          exfalso
          have hmem : (name, key) ∈ rankingStats overall :=
            hperm.subset (List.mem_cons_self _ _)
          have hki : key = Flt.inf := hall _ hmem
          rw [hki] at hb'
          simp [Flt.beq] at hb'
  refine ⟨part1, ?_, ?_⟩
  · intro hex
    rcases hex with ⟨p, hp, hpne⟩
    have hne : finalVerdict overall ≠ .noData := by
      intro h
      exact hpne (part1.mp h p hp)
    rcases hv : finalVerdict overall with ⟨n, a⟩ | _
    · exact ⟨n, a, rfl⟩
    · exact absurd hv hne
  · intro name key rest hS hb
    have hmem : (name, key) ∈ rankingStats overall := by
      have hp3 : (sortedResolvers (rankingStats overall)).Perm
          (rankingStats overall) := List.perm_insertionSort keyRel _
      exact (hS ▸ hp3).subset (List.mem_cons_self _ _)
    have hname : ∃ q ∈ overall, q.1 = name := by
      rcases List.mem_map.mp hmem with ⟨q, hq, hq2⟩
      exact ⟨q, hq, congrArg Prod.fst hq2⟩
    rcases lookup_isSome_of_mem overall name hname with ⟨s, hs⟩
    refine ⟨s, hs, ?_⟩
    unfold finalVerdict
    rw [hS]
    simp [hb, hs]

/-- Witness for `final_verdict_spec`: on `ovFix` the verdict names the
one resolver with data and its 5 ms average. -/
theorem final_verdict_spec_witness :
    finalVerdict ovFix = Verdict.fastest "Cloudflare 1.1.1.1" (Flt.val 5) := by
  obtain ⟨s, hs, hv⟩ := (final_verdict_spec ovFix).2.2 "Cloudflare 1.1.1.1"
    (Flt.val 5) [("NoDataA", Flt.inf), ("NoDataC", Flt.inf)]
    (by decide) (by decide)
  have hlook : ovFix.lookup "Cloudflare 1.1.1.1" = some statsFive := by decide
  rw [hlook] at hs
  have hsf : statsFive = s := Option.some.inj hs
  rw [← hsf] at hv
  exact hv

theorem getCell_runBenchmark (resolvers : List (String × String))
    (domains : List String) (n : ℕ)
    (query : String → String → ℕ → Except String ℚ) (i j t : ℕ)
    (r : String × String) (d : String)
    (hi : resolvers[i]? = some r) (hj : domains[j]? = some d) (ht : t < n) :
    getCell (runBenchmark resolvers domains n query) i j t =
      some (match query r.2 d (t + 1) with
            | .ok v => some v
            | .error _ => none) := by
  unfold getCell runBenchmark
  rw [List.getElem?_map, hi]
  simp only [Option.map_some', Option.some_bind]
  rw [List.getElem?_map, hj]
  simp only [Option.map_some', Option.some_bind]
  rw [List.getElem?_map, List.getElem?_range ht]
  simp only [Option.map_some']

/-- C9: the benchmark loop produces a fully populated matrix: the rows
are exactly the configured resolvers in order, every row holds exactly
the configured domains in order, every cell holds exactly `numTrials`
samples, and the sample at trial index `t` is the outcome of trial
`t + 1` of the oracle for that resolver and domain (samples are in
trial order).  Statistics are functions of this completed table. -/
theorem runBenchmark_full_matrix (resolvers : List (String × String))
    (domains : List String) (n : ℕ)
    (query : String → String → ℕ → Except String ℚ) :
    (runBenchmark resolvers domains n query).map Prod.fst =
        resolvers.map Prod.fst ∧
    (∀ row ∈ runBenchmark resolvers domains n query,
        row.2.map Prod.fst = domains ∧ ∀ cell ∈ row.2, cell.2.length = n) ∧
    (∀ i j t (r : String × String) (d : String),
        resolvers[i]? = some r → domains[j]? = some d → t < n →
        getCell (runBenchmark resolvers domains n query) i j t =
          some (match query r.2 d (t + 1) with
                | .ok v => some v
                | .error _ => none)) := by
  refine ⟨?_, ?_, ?_⟩
  · unfold runBenchmark
    rw [List.map_map]
    rfl
  · intro row hrow
    rcases List.mem_map.mp hrow with ⟨r, _, rfl⟩
    constructor
    · rw [List.map_map]
      exact List.map_id _
    · intro cell hcell
      rcases List.mem_map.mp hcell with ⟨d, _, rfl⟩
      simp
  · intro i j t r d hi hj ht
    exact getCell_runBenchmark resolvers domains n query i j t r d hi hj ht

/-- Witness for `runBenchmark_full_matrix`: one resolver, one domain,
two trials of an always-succeeding oracle; the sample at trial index 1
is the outcome of trial 2. -/
theorem runBenchmark_full_matrix_witness :
    getCell (runBenchmark [("Google 8.8.8.8", "8.8.8.8")] ["google.com"] 2
        qOkFix) 0 0 1 = some (some 2) := by
  have h := (runBenchmark_full_matrix [("Google 8.8.8.8", "8.8.8.8")]
      ["google.com"] 2 qOkFix).2.2 0 0 1 ("Google 8.8.8.8", "8.8.8.8")
      "google.com" rfl rfl (by decide)
  simpa [qOkFix] using h

/-- C7: when a query raises at some (resolver, domain, trial), the loop
records the failure marker `None` for that cell and still produces the
complete resolver times domain times trial matrix. -/
theorem runBenchmark_failure_recorded (resolvers : List (String × String))
    (domains : List String) (n : ℕ)
    (query : String → String → ℕ → Except String ℚ) (i j t : ℕ)
    (r : String × String) (d : String) (e : String)
    (hi : resolvers[i]? = some r) (hj : domains[j]? = some d) (ht : t < n)
    (herr : query r.2 d (t + 1) = .error e) :
    getCell (runBenchmark resolvers domains n query) i j t = some none ∧
    (runBenchmark resolvers domains n query).length = resolvers.length ∧
    (∀ row ∈ runBenchmark resolvers domains n query,
        row.2.length = domains.length ∧ ∀ cell ∈ row.2, cell.2.length = n) := by
  refine ⟨?_, ?_, ?_⟩
  · rw [getCell_runBenchmark resolvers domains n query i j t r d hi hj ht,
      herr]
  · unfold runBenchmark
    exact List.length_map _ _
  · intro row hrow
    rcases List.mem_map.mp hrow with ⟨rr, _, rfl⟩
    constructor
    · exact List.length_map _ _
    · intro cell hcell
      rcases List.mem_map.mp hcell with ⟨d2, _, rfl⟩
      simp

/-- Witness for `runBenchmark_failure_recorded`: a run whose single
query raises still yields a table with the failure marker recorded and
the full (here 1 x 1 x 1) matrix present. -/
theorem runBenchmark_failure_recorded_witness :
    getCell (runBenchmark [("Google 8.8.8.8", "8.8.8.8")] ["google.com"] 1
        qErrFix) 0 0 0 = some none ∧
      (runBenchmark [("Google 8.8.8.8", "8.8.8.8")] ["google.com"] 1
        qErrFix).length = 1 := by
  have h := runBenchmark_failure_recorded [("Google 8.8.8.8", "8.8.8.8")]
      ["google.com"] 1 qErrFix 0 0 0 ("Google 8.8.8.8", "8.8.8.8")
      "google.com" "The DNS operation timed out" rfl rfl (by decide) rfl
  exact ⟨h.1, h.2.1⟩

end DnsPerf
